import Mathlib

/-!
Verification development for the `snowmerak/ttobot` repository.

This file shallowly embeds the MCP multi-server registry
(`pkg/mcp/client.go`), the generic schema transcoder
(`pkg/mcp/convert.go`), the common tool abstraction
(`lib/tool/tool.go`) and the tool-call handling of the Ollama adapter
(`pkg/ollama/client.go`) as executable Lean definitions, and proves the
testable properties of the specification against them.

Modelling conventions:
* Go maps are represented as association lists; `mlookup` is map read
  (first matching key) and `insertKV` is map write.
* The external `*mcp.ClientSession` is represented by a `Session` record
  carrying a `token : Nat` standing for the pointer identity of the Go
  session object, the provider-furnished id `ss.ID()`, and the sequence
  of items its tool-listing iterator yields.
* Ambient effects are passed as explicit arguments: the clock string and
  the random bytes feeding `generateServerID`, the transport outcome of
  `c.client.Connect`, and the per-session `CallTool` behaviour.
* JSON interchange values are the inductive `Json`; `encoding/json`
  marshalling of the schema structs follows the Go struct tags
  (field order, `omitempty`), and unmarshalling merges into the target
  value the way `json.Unmarshal` does (absent fields keep their prior
  value, `null` clears slices/maps/interfaces and is a no-op on strings).
-/

/-- A JSON interchange value, the neutral encoding `ConvertViaJSON`
transcodes through. -/
inductive Json where
  | null : Json
  | bool : Bool → Json
  | num : Int → Json
  | str : String → Json
  | arr : List Json → Json
  | obj : List (String × Json) → Json

/-- Dynamically-typed argument mapping (`map[string]any`). -/
abbrev Args := List (String × Json)

/-- Read from a Go map represented as an association list. -/
def mlookup {κ β : Type} [DecidableEq κ] (k : κ) : List (κ × β) → Option β
  | [] => none
  | (k', v) :: rest => if k' = k then some v else mlookup k rest

/-- Write to a Go map represented as an association list: replace the
binding if the key is present, otherwise append it. -/
def insertKV {β : Type} (l : List (String × β)) (k : String) (v : β) :
    List (String × β) :=
  match l with
  | [] => [(k, v)]
  | (k', v') :: rest =>
      if k' = k then (k, v) :: rest else (k', v') :: insertKV rest k v

/-- The common parameter-schema property shape
(`tool.PropertyDefinition`, `lib/tool/tool.go`).  Field tags:
`type`, `description,omitempty`, `items,omitempty`, `enum,omitempty`. -/
structure PropertyDefinition where
  type : String
  description : String
  items : Option Json
  enum : List Json

/-- The common parameter-schema shape (`tool.ParameterSchema`,
`lib/tool/tool.go`).  Field tags: `type`, `required,omitempty`,
`properties,omitempty`, `$defs,omitempty`, `items,omitempty`. -/
structure ParameterSchema where
  type : String
  required : List String
  properties : List (String × PropertyDefinition)
  defs : Option Json
  items : Option Json

/-- Zero value of `tool.PropertyDefinition`. -/
def zeroPD : PropertyDefinition := ⟨"", "", none, []⟩

/-- Zero value of `tool.ParameterSchema`. -/
def zeroPS : ParameterSchema := ⟨"", [], [], none, none⟩

/-- Go `json.Marshal` of a `tool.PropertyDefinition`: struct fields in
declaration order, `omitempty` fields dropped when empty. -/
def marshalPD (p : PropertyDefinition) : Json :=
  Json.obj (
    [("type", Json.str p.type)]
    ++ (if p.description = "" then [] else
          [("description", Json.str p.description)])
    ++ (match p.items with
        | none => []
        | some j => [("items", j)])
    ++ (if p.enum.isEmpty then [] else [("enum", Json.arr p.enum)]))

/-- Decode a JSON array into `[]string`: every element must be a string
(`null` is a no-op on the zero value `""`). -/
def decodeStrings : List Json → Except String (List String)
  | [] => Except.ok []
  | Json.str s :: rest =>
      match decodeStrings rest with
      | Except.error e => Except.error e
      | Except.ok ss => Except.ok (s :: ss)
  | Json.null :: rest =>
      match decodeStrings rest with
      | Except.error e => Except.error e
      | Except.ok ss => Except.ok ("" :: ss)
  | _ :: _ => Except.error "json: cannot unmarshal value into string"

/-- One field of a JSON object decoded into a `tool.PropertyDefinition`
being filled in, following `json.Unmarshal` struct semantics. -/
def processPDField (st : PropertyDefinition) :
    String × Json → Except String PropertyDefinition
  | ("type", Json.str s) => Except.ok { st with type := s }
  | ("type", Json.null) => Except.ok st
  | ("type", _) =>
      Except.error "json: cannot unmarshal value into field type"
  | ("description", Json.str s) => Except.ok { st with description := s }
  | ("description", Json.null) => Except.ok st
  | ("description", _) =>
      Except.error "json: cannot unmarshal value into field description"
  | ("items", Json.null) => Except.ok { st with items := none }
  | ("items", v) => Except.ok { st with items := some v }
  | ("enum", Json.arr xs) => Except.ok { st with enum := xs }
  | ("enum", Json.null) => Except.ok { st with enum := [] }
  | ("enum", _) =>
      Except.error "json: cannot unmarshal value into field enum"
  | (_, _) => Except.ok st

/-- Process the fields of a JSON object in order into a
`tool.PropertyDefinition`. -/
def processPDFields (st : PropertyDefinition) :
    List (String × Json) → Except String PropertyDefinition
  | [] => Except.ok st
  | kv :: rest =>
      match processPDField st kv with
      | Except.error e => Except.error e
      | Except.ok st' => processPDFields st' rest

/-- Go `json.Unmarshal` of a JSON value into a `tool.PropertyDefinition`
with prior value `st`. -/
def unmarshalPD (st : PropertyDefinition) : Json →
    Except String PropertyDefinition
  | Json.obj fs => processPDFields st fs
  | Json.null => Except.ok st
  | _ => Except.error "json: cannot unmarshal value into PropertyDefinition"

/-- Go `json.Marshal` of a `tool.ParameterSchema`: struct fields in
declaration order (`Type`, `Required`, `Properties`, `Defs`, `Items`),
`omitempty` fields dropped when empty.  The properties map is emitted in
association-list order (the list is the model of the Go map). -/
def marshalPS (p : ParameterSchema) : Json :=
  Json.obj (
    [("type", Json.str p.type)]
    ++ (if p.required.isEmpty then [] else
          [("required", Json.arr (p.required.map Json.str))])
    ++ (if p.properties.isEmpty then [] else
          [("properties",
            Json.obj (p.properties.map (fun q => (q.1, marshalPD q.2))))])
    ++ (match p.defs with
        | none => []
        | some j => [("$defs", j)])
    ++ (match p.items with
        | none => []
        | some j => [("items", j)]))

/-- Decode a JSON object into `map[string]PropertyDefinition`, merging
into the prior map `base`: each entry is decoded into a fresh zero
value and stored. -/
def decodePropsPD (base : List (String × PropertyDefinition)) :
    List (String × Json) → Except String (List (String × PropertyDefinition))
  | [] => Except.ok base
  | (k, v) :: rest =>
      match unmarshalPD zeroPD v with
      | Except.error e => Except.error e
      | Except.ok pd => decodePropsPD (insertKV base k pd) rest

/-- One field of a JSON object decoded into a `tool.ParameterSchema`
being filled in, following `json.Unmarshal` struct semantics. -/
def processPSField (st : ParameterSchema) :
    String × Json → Except String ParameterSchema
  | ("type", Json.str s) => Except.ok { st with type := s }
  | ("type", Json.null) => Except.ok st
  | ("type", _) =>
      Except.error "json: cannot unmarshal value into field type"
  | ("required", Json.arr xs) =>
      match decodeStrings xs with
      | Except.error e => Except.error e
      | Except.ok ss => Except.ok { st with required := ss }
  | ("required", Json.null) => Except.ok { st with required := [] }
  | ("required", _) =>
      Except.error "json: cannot unmarshal value into field required"
  | ("properties", Json.obj pfs) =>
      match decodePropsPD st.properties pfs with
      | Except.error e => Except.error e
      | Except.ok m => Except.ok { st with properties := m }
  | ("properties", Json.null) => Except.ok { st with properties := [] }
  | ("properties", _) =>
      Except.error "json: cannot unmarshal value into field properties"
  | ("$defs", Json.null) => Except.ok { st with defs := none }
  | ("$defs", v) => Except.ok { st with defs := some v }
  | ("items", Json.null) => Except.ok { st with items := none }
  | ("items", v) => Except.ok { st with items := some v }
  | (_, _) => Except.ok st

/-- Process the fields of a JSON object in order into a
`tool.ParameterSchema`. -/
def processPSFields (st : ParameterSchema) :
    List (String × Json) → Except String ParameterSchema
  | [] => Except.ok st
  | kv :: rest =>
      match processPSField st kv with
      | Except.error e => Except.error e
      | Except.ok st' => processPSFields st' rest

/-- Go `json.Unmarshal` of a JSON value into a `tool.ParameterSchema` with
prior value `st` (as `ConvertViaJSON` does with the `to` argument). -/
def unmarshalPS (st : ParameterSchema) : Json → Except String ParameterSchema
  | Json.obj fs => processPSFields st fs
  | Json.null => Except.ok st
  | _ => Except.error "json: cannot unmarshal value into ParameterSchema"

/-- Modelled from the spec: one property of the provider-native
capability schema shape (the `jsonschema.Schema` of the MCP SDK is not
part of this repository).  Spec §3: a property definition carries a
type, a description, a nested item schema and enum values; it is
structurally compatible with `tool.PropertyDefinition` and uses the
same JSON keys. -/
structure SrcProperty where
  type : String
  description : String
  items : Option Json
  enum : List Json

/-- Modelled from the spec: the provider-native capability schema shape
(`mcpTool.InputSchema`).  Spec §3: a recursive structure with a type
tag, a required-field list, a mapping from property name to property
definition, a nested item schema and an optional definitions map,
structurally compatible with `tool.ParameterSchema` and using the same
JSON keys. -/
structure SrcSchema where
  type : String
  required : List String
  properties : List (String × SrcProperty)
  defs : Option Json
  items : Option Json

/-- Zero value of the source property shape. -/
def zeroSrcProperty : SrcProperty := ⟨"", "", none, []⟩

/-- Zero value of the source schema shape. -/
def zeroSrcSchema : SrcSchema := ⟨"", [], [], none, none⟩

/-- Modelled from the spec: `json.Marshal` of a source-shape property,
mirroring the marshalling discipline of the structurally compatible
`tool.PropertyDefinition`. -/
def marshalSrcProperty (p : SrcProperty) : Json :=
  Json.obj (
    [("type", Json.str p.type)]
    ++ (if p.description = "" then [] else
          [("description", Json.str p.description)])
    ++ (match p.items with
        | none => []
        | some j => [("items", j)])
    ++ (if p.enum.isEmpty then [] else [("enum", Json.arr p.enum)]))

/-- Modelled from the spec: `json.Marshal` of a source-shape schema,
mirroring the marshalling discipline of the structurally compatible
`tool.ParameterSchema`. -/
def marshalSrcSchema (p : SrcSchema) : Json :=
  Json.obj (
    [("type", Json.str p.type)]
    ++ (if p.required.isEmpty then [] else
          [("required", Json.arr (p.required.map Json.str))])
    ++ (if p.properties.isEmpty then [] else
          [("properties",
            Json.obj (p.properties.map
              (fun q => (q.1, marshalSrcProperty q.2))))])
    ++ (match p.defs with
        | none => []
        | some j => [("$defs", j)])
    ++ (match p.items with
        | none => []
        | some j => [("items", j)]))

/-- One field decoded into a source-shape property. -/
def processSrcPropertyField (st : SrcProperty) :
    String × Json → Except String SrcProperty
  | ("type", Json.str s) => Except.ok { st with type := s }
  | ("type", Json.null) => Except.ok st
  | ("type", _) =>
      Except.error "json: cannot unmarshal value into field type"
  | ("description", Json.str s) => Except.ok { st with description := s }
  | ("description", Json.null) => Except.ok st
  | ("description", _) =>
      Except.error "json: cannot unmarshal value into field description"
  | ("items", Json.null) => Except.ok { st with items := none }
  | ("items", v) => Except.ok { st with items := some v }
  | ("enum", Json.arr xs) => Except.ok { st with enum := xs }
  | ("enum", Json.null) => Except.ok { st with enum := [] }
  | ("enum", _) =>
      Except.error "json: cannot unmarshal value into field enum"
  | (_, _) => Except.ok st

/-- Process object fields in order into a source-shape property. -/
def processSrcPropertyFields (st : SrcProperty) :
    List (String × Json) → Except String SrcProperty
  | [] => Except.ok st
  | kv :: rest =>
      match processSrcPropertyField st kv with
      | Except.error e => Except.error e
      | Except.ok st' => processSrcPropertyFields st' rest

/-- Go `json.Unmarshal` into a source-shape property. -/
def unmarshalSrcProperty (st : SrcProperty) : Json → Except String SrcProperty
  | Json.obj fs => processSrcPropertyFields st fs
  | Json.null => Except.ok st
  | _ => Except.error "json: cannot unmarshal value into SrcProperty"

/-- Decode a JSON object into the source shape's property map, merging
into the prior map `base`. -/
def decodePropsSrc (base : List (String × SrcProperty)) :
    List (String × Json) → Except String (List (String × SrcProperty))
  | [] => Except.ok base
  | (k, v) :: rest =>
      match unmarshalSrcProperty zeroSrcProperty v with
      | Except.error e => Except.error e
      | Except.ok pd => decodePropsSrc (insertKV base k pd) rest

/-- One field decoded into a source-shape schema. -/
def processSrcField (st : SrcSchema) :
    String × Json → Except String SrcSchema
  | ("type", Json.str s) => Except.ok { st with type := s }
  | ("type", Json.null) => Except.ok st
  | ("type", _) =>
      Except.error "json: cannot unmarshal value into field type"
  | ("required", Json.arr xs) =>
      match decodeStrings xs with
      | Except.error e => Except.error e
      | Except.ok ss => Except.ok { st with required := ss }
  | ("required", Json.null) => Except.ok { st with required := [] }
  | ("required", _) =>
      Except.error "json: cannot unmarshal value into field required"
  | ("properties", Json.obj pfs) =>
      match decodePropsSrc st.properties pfs with
      | Except.error e => Except.error e
      | Except.ok m => Except.ok { st with properties := m }
  | ("properties", Json.null) => Except.ok { st with properties := [] }
  | ("properties", _) =>
      Except.error "json: cannot unmarshal value into field properties"
  | ("$defs", Json.null) => Except.ok { st with defs := none }
  | ("$defs", v) => Except.ok { st with defs := some v }
  | ("items", Json.null) => Except.ok { st with items := none }
  | ("items", v) => Except.ok { st with items := some v }
  | (_, _) => Except.ok st

/-- Process object fields in order into a source-shape schema. -/
def processSrcFields (st : SrcSchema) :
    List (String × Json) → Except String SrcSchema
  | [] => Except.ok st
  | kv :: rest =>
      match processSrcField st kv with
      | Except.error e => Except.error e
      | Except.ok st' => processSrcFields st' rest

/-- Go `json.Unmarshal` into a source-shape schema. -/
def unmarshalSrcSchema (st : SrcSchema) : Json → Except String SrcSchema
  | Json.obj fs => processSrcFields st fs
  | Json.null => Except.ok st
  | _ => Except.error "json: cannot unmarshal value into SrcSchema"

/-- Function `ConvertViaJSON` (`pkg/mcp/convert.go`) instantiated at
`from : *jsonschema.Schema`, `to : *tool.ParameterSchema` — the call
made in `Client.Tools`: marshal the source, unmarshal into the target
(whose prior value is `base`), wrapping an unmarshalling failure.
Marshalling of these struct shapes cannot fail. -/
def ConvertViaJSONToParams (src : SrcSchema) (base : ParameterSchema) :
    Except String ParameterSchema :=
  match unmarshalPS base (marshalSrcSchema src) with
  | Except.error e => Except.error ("failed to unmarshal to type: " ++ e)
  | Except.ok v => Except.ok v

/-- Function `ConvertViaJSON` (`pkg/mcp/convert.go`) instantiated in the
opposite direction, `from : *tool.ParameterSchema`,
`to : *jsonschema.Schema` (the round-trip direction of spec §8). -/
def ConvertViaJSONToSchema (ps : ParameterSchema) (base : SrcSchema) :
    Except String SrcSchema :=
  match unmarshalSrcSchema base (marshalPS ps) with
  | Except.error e => Except.error ("failed to unmarshal to type: " ++ e)
  | Except.ok v => Except.ok v

/-- Hex digit table of `encoding/hex` (`hex.EncodeToString`). -/
def hexDigits : List Char := "0123456789abcdef".toList

/-- One hex digit: index into the digit table (a Go byte nibble is
always below 16; `% 16` makes the table indexing total). -/
def hexDigit (n : Nat) : Char := hexDigits.getD (n % 16) '0'

/-- Characters of `hex.EncodeToString`: high nibble then low nibble of
each byte, in input order. -/
def hexEncodeChars : List Nat → List Char
  | [] => []
  | b :: rest => hexDigit (b / 16) :: hexDigit (b % 16) :: hexEncodeChars rest

/-- Function `generateUUID` (`pkg/mcp/client.go`): hex encoding of 16 random
bytes, the bytes passed explicitly. -/
def generateUUID (bytes : List Nat) : String :=
  String.mk (hexEncodeChars bytes)

/-- Function `generateServerID` (`pkg/mcp/client.go`): keep a non-empty original
id; otherwise build `mcp-server-<timestamp>-<first 8 chars of uuid>`.
The clock string `ts` (Go: `time.Now().Format("20060102-150405")`) and
the random bytes are explicit arguments. -/
def generateServerID (originalID : String) (ts : String)
    (bytes : List Nat) : String :=
  if originalID ≠ "" then originalID
  else "mcp-server-" ++ ts ++ "-" ++ String.mk ((hexEncodeChars bytes).take 8)

/-- One native tool as reported by a provider (`mcp.Tool`): name,
description, title and an optional input schema. -/
structure MCPTool where
  name : String
  description : String
  title : String
  inputSchema : Option SrcSchema

/-- One item yielded by a session's tool-listing iterator
(`server.Tools` yields `(tool, err)` pairs; a `nil` tool is skipped). -/
inductive ToolsItem where
  | fail : String → ToolsItem
  | missing : ToolsItem
  | tool : MCPTool → ToolsItem

/-- A live provider session (`*mcp.ClientSession`): `token` models the
pointer identity of the Go session object, `providerId` is `ss.ID()`,
and `toolsList` is the sequence its tool-listing iterator yields. -/
structure Session where
  token : Nat
  providerId : String
  toolsList : List ToolsItem

/-- The multi-session registry (`mcp.Client`): `servers` is the
id-to-session map, `serverIDs` the session-to-id map (keyed by session
pointer identity). -/
structure Client where
  servers : List (String × Session)
  serverIDs : List (Nat × String)

/-- Constructor `NewClient`: both maps start empty. -/
def NewClient : Client := ⟨[], []⟩

/-- Result of one `connectWithTransport` call: the registry state after
the call, the returned error (if any), and whether the freshly
connected session was closed by the call (`ss.Close()` on duplicate). -/
structure ConnectRes where
  newClient : Client
  error : Option String
  closedNew : Bool

/-- Method `Client.connectWithTransport` (`pkg/mcp/client.go`): the transport
outcome of `c.client.Connect` is the `conn` argument; on success the
server id is determined by `generateServerID`, a duplicate id closes
the new session and fails, otherwise both maps are extended. -/
def Client.connectWithTransport (c : Client)
    (conn : Except String Session) (ts : String) (bytes : List Nat) :
    ConnectRes :=
  match conn with
  | Except.error e =>
      ⟨c, some ("failed to connect to MCP server: " ++ e), false⟩
  | Except.ok ss =>
      let serverID := generateServerID ss.providerId ts bytes
      match mlookup serverID c.servers with
      | some _ =>
          ⟨c, some ("server with ID " ++ serverID ++ " already exists"), true⟩
      | none =>
          ⟨⟨c.servers ++ [(serverID, ss)],
            c.serverIDs ++ [(ss.token, serverID)]⟩, none, false⟩

/-- One launch descriptor together with the ambient outcome of its
connection attempt (`mcpConfig.Config` plus the effects of
`ConnectFromConfig`): the config's `Name`, the transport outcome, and
the clock/randomness feeding id generation. -/
structure ConfigA where
  name : String
  conn : Except String Session
  ts : String
  bytes : List Nat

/-- Method `Client.ConnectFromConfigs` (`pkg/mcp/client.go`): connect to each
config in order; the first failure is wrapped with the config's name
and returned, aborting the rest. -/
def Client.ConnectFromConfigs (c : Client) :
    List ConfigA → Client × Option String
  | [] => (c, none)
  | cfg :: rest =>
      let r := Client.connectWithTransport c cfg.conn cfg.ts cfg.bytes
      match r.error with
      | some e =>
          (r.newClient,
           some ("failed to connect to server " ++ cfg.name ++ ": " ++ e))
      | none => Client.ConnectFromConfigs r.newClient rest

/-- A sequence of independent `Connect` calls (the caller keeps calling
after failures); returns the final registry state and the number of
successful connects. -/
def runConnects (c : Client) : List ConfigA → Client × Nat
  | [] => (c, 0)
  | cfg :: rest =>
      let r := Client.connectWithTransport c cfg.conn cfg.ts cfg.bytes
      let p := runConnects r.newClient rest
      (p.1, if r.error = none then p.2 + 1 else p.2)

/-- The bound execution strategy of one listed tool
(`MCPToolExecutor`): the owning registry is passed at execution time,
the struct captures the server id, the native (unprefixed) tool name
and the original tool. -/
structure MCPToolExecutor where
  serverID : String
  toolName : String
  originalTool : MCPTool

/-- Struct `tool.ToolFunction` (`lib/tool/tool.go`). -/
structure ToolFunction where
  name : String
  description : String
  parameters : ParameterSchema

/-- Struct `tool.Tool` (`lib/tool/tool.go`), polymorphic in the executor the
tool is bound to (`ToolExecutor` is an interface in Go). -/
structure Tool (ε : Type) where
  name : String
  description : String
  title : String
  function : ToolFunction
  executor : Option ε

/-- Method `tool.Tool.Execute`: fail if no executor is bound, otherwise
delegate to the executor's behaviour `runExec`. -/
def Tool.Execute {ε : Type} (runExec : ε → Args → Except String String)
    (t : Tool ε) (args : Args) : Except String String :=
  match t.executor with
  | none => Except.error ("no executor available for tool " ++ t.name)
  | some ex => runExec ex args

/-- A tool as produced by the registry. -/
abbrev ToolMCP := Tool MCPToolExecutor

/-- The pre-filled parameter schema `Client.Tools` builds before
conversion: type `object`, empty required list, empty properties map. -/
def baseParams : ParameterSchema := ⟨"object", [], [], none, none⟩

/-- The common tool `Client.Tools` builds for one native tool: display
name `<serverID>:<native name>` and a bound `MCPToolExecutor`. -/
def mkCommonTool (serverID : String) (mt : MCPTool)
    (params : ParameterSchema) : ToolMCP :=
  { name := serverID ++ ":" ++ mt.name,
    description := mt.description,
    title := mt.title,
    function :=
      { name := serverID ++ ":" ++ mt.name,
        description := mt.description,
        parameters := params },
    executor := some ⟨serverID, mt.name, mt⟩ }

/-- The parameter schema of one native tool: the pre-filled base when
the provider sent no input schema, otherwise `ConvertViaJSON` into the
base, wrapping a conversion failure with the native tool name. -/
def convertInputSchema (mt : MCPTool) : Except String ParameterSchema :=
  match mt.inputSchema with
  | none => Except.ok baseParams
  | some src =>
      match ConvertViaJSONToParams src baseParams with
      | Except.error e =>
          Except.error ("failed to convert input schema for tool "
            ++ mt.name ++ ": " ++ e)
      | Except.ok ps => Except.ok ps

/-- Drain one session's tool-listing iterator: stop with an error on
the first enumeration failure, skip `nil` tools, build a common tool
for each native tool. -/
def listServerTools (serverID : String) :
    List ToolsItem → Except String (List ToolMCP)
  | [] => Except.ok []
  | ToolsItem.fail e :: _ =>
      Except.error ("failed to list tools: " ++ e)
  | ToolsItem.missing :: rest => listServerTools serverID rest
  | ToolsItem.tool mt :: rest =>
      match convertInputSchema mt with
      | Except.error e => Except.error e
      | Except.ok params =>
          match listServerTools serverID rest with
          | Except.error e => Except.error e
          | Except.ok ts => Except.ok (mkCommonTool serverID mt params :: ts)

/-- Enumerate every connection in registry order, resolving each
session's id through the session-to-id map (`c.serverIDs[server]`,
yielding the zero value `""` for an unknown session) and merging the
per-session tool lists. -/
def toolsAll (serverIDs : List (Nat × String)) :
    List (String × Session) → Except String (List ToolMCP)
  | [] => Except.ok []
  | (_, s) :: rest =>
      match listServerTools ((mlookup s.token serverIDs).getD "")
              s.toolsList with
      | Except.error e => Except.error e
      | Except.ok ts =>
          match toolsAll serverIDs rest with
          | Except.error e => Except.error e
          | Except.ok ts' => Except.ok (ts ++ ts')

/-- Method `Client.Tools` (`pkg/mcp/client.go`): fail on an empty registry,
enumerate all connections, fail if the merged result is empty. -/
def Client.Tools (c : Client) : Except String (List ToolMCP) :=
  if c.servers.isEmpty then Except.error "no servers connected"
  else
    match toolsAll c.serverIDs c.servers with
    | Except.error e => Except.error e
    | Except.ok result =>
        if result.isEmpty then Except.error "no tools found"
        else Except.ok result

/-- One content fragment of a tool-call result (`mcp.Content`): either
text, or another content kind whose `MarshalJSON` yields the given
bytes (`none` when serialization fails). -/
inductive Content where
  | text : String → Content
  | other : Option String → Content

/-- A provider's tool-call result (`mcp.CallToolResult`): optional
content fragments (`nil` vs present slice) and the logical error
flag. -/
structure CallToolResult where
  content : Option (List Content)
  isError : Bool

/-- The string a list of content fragments builds up
(`strings.Builder` loop in `MCPToolExecutor.Execute`): text fragments
verbatim, other fragments their serialized bytes, fragments whose
serialization fails silently skipped. -/
def renderContent : List Content → String
  | [] => ""
  | Content.text s :: rest => s ++ renderContent rest
  | Content.other (some j) :: rest => j ++ renderContent rest
  | Content.other none :: rest => renderContent rest

/-- Result-to-string conversion of `MCPToolExecutor.Execute`: render
the fragments when content is present, otherwise the fixed success
message. -/
def convertResult (r : CallToolResult) : String :=
  match r.content with
  | some cs => renderContent cs
  | none => "Tool executed successfully"

/-- Method `MCPToolExecutor.Execute` (`pkg/mcp/client.go`): look the captured
server id up in the registry, fail if it is gone, invoke the session's
`CallTool` (the behaviour `call`, keyed by session pointer identity)
with the native tool name and the given arguments, wrap a call error,
and convert a successful result to a string. -/
def MCPToolExecutor.Execute (c : Client) (e : MCPToolExecutor)
    (call : Nat → String → Args → Except String CallToolResult)
    (args : Args) : Except String String :=
  match mlookup e.serverID c.servers with
  | none => Except.error ("server " ++ e.serverID ++ " not found")
  | some s =>
      match call s.token e.toolName args with
      | Except.error err =>
          Except.error ("failed to call tool " ++ e.toolName ++ ": " ++ err)
      | Except.ok r => Except.ok (convertResult r)

/-- One requested invocation in a chat response (`api.ToolCall`):
function name and argument mapping. -/
structure ToolCall where
  name : String
  args : Args

/-- One chat message (`api.Message`): role and content. -/
structure Message where
  role : String
  content : String

/-- Method `Client.ExecuteToolCall` (`pkg/ollama/client.go`): find the first
tool whose function name equals the call's name, fail if none, execute
it through the common tool abstraction, wrapping an execution
failure. -/
def ExecuteToolCall {ε : Type} (tools : List (Tool ε))
    (runExec : ε → Args → Except String String) (tc : ToolCall) :
    Except String String :=
  match tools.find? (fun t => t.function.name == tc.name) with
  | none => Except.error ("tool " ++ tc.name ++ " not found")
  | some t =>
      match Tool.Execute runExec t tc.args with
      | Except.error e =>
          Except.error ("tool execution failed: " ++ e)
      | Except.ok r => Except.ok r

/-- Content of the result message built for one requested invocation:
the tool's output on success, a textual failure description on
failure. -/
def toolCallMessageContent {ε : Type} (tools : List (Tool ε))
    (runExec : ε → Args → Except String String) (tc : ToolCall) : String :=
  match ExecuteToolCall tools runExec tc with
  | Except.ok result => result
  | Except.error e => "Tool execution failed: " ++ e

/-- The loop of `HandleToolCallsInResponse`: one `tool`-role message
appended per requested invocation, in request order. -/
def handleLoop {ε : Type} (tools : List (Tool ε))
    (runExec : ε → Args → Except String String) :
    List ToolCall → List Message
  | [] => []
  | tc :: rest =>
      { role := "tool", content := toolCallMessageContent tools runExec tc }
        :: handleLoop tools runExec rest

/-- Method `Client.HandleToolCallsInResponse` (`pkg/ollama/client.go`):
return an empty result with no error when the response carries no
invocation requests, otherwise one result message per request. -/
def HandleToolCallsInResponse {ε : Type} (tools : List (Tool ε))
    (runExec : ε → Args → Except String String) (toolCalls : List ToolCall) :
    Except String (List Message) :=
  if toolCalls.length = 0 then Except.ok []
  else Except.ok (handleLoop tools runExec toolCalls)

/-- The mutual-inverse relation between the registry's two maps: a
registered id's session maps back to that id, and a session recorded
in the session-to-id map is the one stored under its id. -/
def RegistryInv (c : Client) : Prop :=
  (∀ id s, mlookup id c.servers = some s →
      mlookup s.token c.serverIDs = some id) ∧
  (∀ t id, mlookup t c.serverIDs = some id →
      (mlookup id c.servers).map Session.token = some t)

/-- Registry well-formedness: unique server ids plus the mutual-inverse
relation of the two maps. -/
def Wf (c : Client) : Prop :=
  (c.servers.map Prod.fst).Nodup ∧ RegistryInv c

/-- Normalization `json.Unmarshal` applies to an `any` field: a JSON
`null` decodes to the nil interface. -/
def defsNorm : Option Json → Option Json
  | some Json.null => none
  | x => x

/-- Native tool `ping` of the demo scenario. -/
def pingTool : MCPTool := ⟨"ping", "", "", none⟩

/-- Native tool `status` of the demo scenario. -/
def statusTool : MCPTool := ⟨"status", "", "", none⟩

/-- Demo connection `A` exposing native tool `ping`. -/
def sessA : Session := ⟨0, "A", [ToolsItem.tool pingTool]⟩

/-- Demo connection `B` exposing native tools `ping` and `status`. -/
def sessB : Session := ⟨1, "B", [ToolsItem.tool pingTool, ToolsItem.tool statusTool]⟩

/-- Demo registry with connections `A` and `B` (spec §8 scenario). -/
def demoClient : Client := ⟨[("A", sessA), ("B", sessB)], [(0, "A"), (1, "B")]⟩

/-- The tool list the demo registry produces. -/
def demoTools : List ToolMCP :=
  [mkCommonTool "A" pingTool baseParams,
   mkCommonTool "B" pingTool baseParams,
   mkCommonTool "B" statusTool baseParams]

/-- A demo `CallTool` behaviour distinguishing the invoked session and
native name. -/
def demoCall (t : Nat) (n : String) (_ : Args) :
    Except String CallToolResult :=
  if t = 1 ∧ n = "ping" then
    Except.ok ⟨some [Content.text "pong-B"], false⟩
  else
    Except.ok ⟨some [Content.text "other"], false⟩

/-- An executor referring to a connection id absent from the registry. -/
def goneExecutor : MCPToolExecutor := ⟨"gone", "ping", pingTool⟩

/-- Sixteen demo random bytes (`ab cd 12 34 ...`). -/
def demoBytes : List Nat :=
  [171, 205, 18, 52, 86, 120, 154, 188, 222, 240, 1, 2, 3, 4, 5, 6]

/-- A parameter schema exercising all four facets of spec §8's
round-trip property: required fields, named properties, an enum and a
nested item schema. -/
def demoSchema : ParameterSchema :=
  ⟨"object", ["path"],
   [("path", ⟨"string", "file path", none, [Json.str "a", Json.str "b"]⟩),
    ("entries", ⟨"array", "", some (Json.obj [("type", Json.str "string")]),
      []⟩)],
   none, some (Json.obj [("type", Json.str "number")])⟩

/-- String a content-fragment list denotes under the specification's
reading: text fragments verbatim, serializable non-text fragments as
their serialization, unserializable fragments contribute nothing. -/
def fragmentText : Content → String
  | Content.text s => s
  | Content.other (some j) => j
  | Content.other none => ""

/-- A non-empty registry whose sole connection advertises no tools. -/
def quietClient : Client := ⟨[("A", ⟨0, "A", []⟩)], [(0, "A")]⟩

/-- Demo tools for the adapter scenario: executors tagged by `Nat`. -/
def demoOllamaTools : List (Tool Nat) :=
  [⟨"good", "", "", ⟨"good", "", baseParams⟩, some 0⟩,
   ⟨"bad", "", "", ⟨"bad", "", baseParams⟩, some 1⟩]

/-- Demo executor behaviour: executor `0` succeeds, all others fail. -/
def demoRunExec (n : Nat) (_ : Args) : Except String String :=
  if n = 0 then Except.ok "42" else Except.error "boom"

/-- A session colliding with demo connection `A`: its provider id is
`A`, already registered in the demo registry. -/
def dupSession : Session := ⟨7, "A", []⟩

theorem mlookup_append {κ β : Type} [DecidableEq κ] (k : κ)
    (xs ys : List (κ × β)) :
    mlookup k (xs ++ ys) =
      match mlookup k xs with
      | some v => some v
      | none => mlookup k ys := by
  induction xs with
  | nil => simp [mlookup]
  | cons p rest ih =>
      obtain ⟨k', v⟩ := p
      by_cases h : k' = k <;> simp [mlookup, h, ih]

theorem mlookup_append_left {κ β : Type} [DecidableEq κ] (k : κ)
    (xs ys : List (κ × β)) (v : β) (h : mlookup k xs = some v) :
    mlookup k (xs ++ ys) = some v := by
  rw [mlookup_append, h]

theorem mlookup_append_right {κ β : Type} [DecidableEq κ] (k : κ)
    (xs ys : List (κ × β)) (h : mlookup k xs = none) :
    mlookup k (xs ++ ys) = mlookup k ys := by
  rw [mlookup_append, h]

theorem mlookup_eq_of_mem_nodup {κ β : Type} [DecidableEq κ]
    (l : List (κ × β)) (k : κ) (v : β)
    (hmem : (k, v) ∈ l) (hnd : (l.map Prod.fst).Nodup) :
    mlookup k l = some v := by
  induction l with
  | nil => cases hmem
  | cons p rest ih =>
      obtain ⟨k', v'⟩ := p
      simp only [List.map_cons, List.nodup_cons] at hnd
      rcases List.mem_cons.mp hmem with h | h
      · injection h with h1 h2
        subst h1
        subst h2
        simp [mlookup]
      · have hk : k' ≠ k := by
          intro he
          subst he
          exact hnd.1 (List.mem_map.mpr ⟨_, h, rfl⟩)
        simp [mlookup, hk, ih h hnd.2]

theorem mlookup_mem {κ β : Type} [DecidableEq κ]
    (l : List (κ × β)) (k : κ) (v : β) (h : mlookup k l = some v) :
    (k, v) ∈ l := by
  induction l with
  | nil => simp [mlookup] at h
  | cons p rest ih =>
      obtain ⟨k', v'⟩ := p
      by_cases hk : k' = k
      · subst hk
        simp [mlookup] at h
        subst h
        exact List.mem_cons_self _ _
      · simp [mlookup, hk] at h
        exact List.mem_cons_of_mem _ (ih h)

theorem insertKV_eq_append_of_not_mem {β : Type}
    (l : List (String × β)) (k : String) (v : β)
    (h : k ∉ l.map Prod.fst) :
    insertKV l k v = l ++ [(k, v)] := by
  induction l with
  | nil => simp [insertKV]
  | cons p rest ih =>
      obtain ⟨k', v'⟩ := p
      simp only [List.map_cons, List.mem_cons] at h
      push_neg at h
      have hk : ¬ k' = k := fun he => h.1 he.symm
      simp [insertKV, hk, ih h.2]

theorem hexDigit_mem (n : Nat) : hexDigit n ∈ hexDigits := by
  have h16 : hexDigits.length = 16 := rfl
  have h : n % 16 < hexDigits.length := by
    rw [h16]
    exact Nat.mod_lt _ (by norm_num)
  unfold hexDigit
  rw [List.getD_eq_getElem _ _ h]
  exact List.getElem_mem h

theorem hexEncodeChars_length (bs : List Nat) :
    (hexEncodeChars bs).length = 2 * bs.length := by
  induction bs with
  | nil => rfl
  | cons b rest ih => simp [hexEncodeChars, ih]; omega

theorem hexEncodeChars_mem (bs : List Nat) (ch : Char)
    (h : ch ∈ hexEncodeChars bs) : ch ∈ hexDigits := by
  induction bs with
  | nil => cases h
  | cons b rest ih =>
      rcases List.mem_cons.mp h with h1 | h2
      · rw [h1]
        exact hexDigit_mem _
      · rcases List.mem_cons.mp h2 with h3 | h4
        · rw [h3]
          exact hexDigit_mem _
        · exact ih h4

/-- C6: for a tool whose owning connection has been removed from the
registry, `Execute` on the bound executor fails with the
unknown-server error (`server <id> not found`); it neither silently
no-ops nor crashes. -/
theorem execute_unknown_connection (c : Client) (e : MCPToolExecutor)
    (call : Nat → String → Args → Except String CallToolResult)
    (args : Args) (h : mlookup e.serverID c.servers = none) :
    MCPToolExecutor.Execute c e call args
      = Except.error ("server " ++ e.serverID ++ " not found") := by
  unfold MCPToolExecutor.Execute
  rw [h]

theorem execute_unknown_connection_witness :
    MCPToolExecutor.Execute NewClient goneExecutor demoCall []
      = Except.error "server gone not found" :=
  execute_unknown_connection NewClient goneExecutor demoCall [] rfl

theorem foldl_strAppend (l : List String) (a b : String) :
    List.foldl (fun r s => r ++ s) (a ++ b) l
      = a ++ List.foldl (fun r s => r ++ s) b l := by
  induction l generalizing b with
  | nil => rfl
  | cons x rest ih =>
      simp only [List.foldl]
      rw [String.append_assoc, ih]

theorem strJoin_cons (x : String) (l : List String) :
    String.join (x :: l) = x ++ String.join l := by
  show List.foldl (fun r s => r ++ s) ("" ++ x) l = x ++ String.join l
  have h1 : ("" ++ x : String) = x ++ "" := by simp
  rw [h1, foldl_strAppend]
  rfl

theorem renderContent_join (cs : List Content) :
    renderContent cs = String.join (cs.map fragmentText) := by
  induction cs with
  | nil => rfl
  | cons c rest ih =>
      cases c with
      | text s => simp [renderContent, fragmentText, strJoin_cons, ih]
      | other o =>
          cases o with
          | none => simp [renderContent, fragmentText, strJoin_cons, ih]
          | some j => simp [renderContent, fragmentText, strJoin_cons, ih]

/-- C7: when the provider call succeeds, `Execute` returns (without
error) the in-order concatenation of the textual content of all
fragments — text verbatim, serializable non-text fragments as their
serialized form, unserializable fragments silently skipped — with a
`nil` content slice yielding the fixed success message, and the
result's logical error flag never turning the return into an error. -/
theorem execute_success_concatenates (c : Client) (e : MCPToolExecutor)
    (call : Nat → String → Args → Except String CallToolResult)
    (args : Args) (s : Session) (r : CallToolResult)
    (hs : mlookup e.serverID c.servers = some s)
    (hr : call s.token e.toolName args = Except.ok r) :
    MCPToolExecutor.Execute c e call args = Except.ok (convertResult r) ∧
    (∀ cs, r.content = some cs →
      convertResult r = String.join (cs.map fragmentText)) ∧
    (r.content = none → convertResult r = "Tool executed successfully") ∧
    (∀ b, convertResult { r with isError := b } = convertResult r) := by
  refine ⟨?_, ?_, ?_, ?_⟩
  · simp only [MCPToolExecutor.Execute, hs, hr]
  · intro cs hcs
    unfold convertResult
    rw [hcs]
    exact renderContent_join cs
  · intro hcs
    unfold convertResult
    rw [hcs]
  · intro b
    unfold convertResult
    rfl

theorem execute_success_concatenates_witness :
    MCPToolExecutor.Execute demoClient ⟨"B", "ping", pingTool⟩
        (fun _ _ _ => Except.ok
          ⟨some [Content.text "a", Content.other (some "[1,2]"),
                 Content.other none, Content.text "b"], true⟩) []
      = Except.ok "a[1,2]b" := by
  have h := execute_success_concatenates demoClient ⟨"B", "ping", pingTool⟩
    (fun _ _ _ => Except.ok
      ⟨some [Content.text "a", Content.other (some "[1,2]"),
             Content.other none, Content.text "b"], true⟩) [] sessB
    ⟨some [Content.text "a", Content.other (some "[1,2]"),
           Content.other none, Content.text "b"], true⟩ rfl rfl
  exact h.1

/-- C8: a successful connection keeps a non-empty provider-furnished
id; an empty one is replaced by `mcp-server-<timestamp>-<suffix>` where
the suffix is the first 8 characters of the hex encoding of the 16
random bytes (8 hex digits); and `connectWithTransport` registers the
session under exactly this identifier. -/
theorem generateServerID_form (originalID ts : String) (bytes : List Nat)
    (hlen : bytes.length = 16) :
    (originalID ≠ "" → generateServerID originalID ts bytes = originalID) ∧
    (originalID = "" →
      generateServerID originalID ts bytes
          = "mcp-server-" ++ ts ++ "-"
              ++ String.mk ((hexEncodeChars bytes).take 8) ∧
      ((hexEncodeChars bytes).take 8).length = 8 ∧
      ∀ ch ∈ (hexEncodeChars bytes).take 8, ch ∈ hexDigits) ∧
    (∀ (c : Client) (ss : Session), ss.providerId = originalID →
      (Client.connectWithTransport c (Except.ok ss) ts bytes).error = none →
      mlookup (generateServerID originalID ts bytes)
          (Client.connectWithTransport c
            (Except.ok ss) ts bytes).newClient.servers
        = some ss) := by
  refine ⟨?_, ?_, ?_⟩
  · intro h
    unfold generateServerID
    rw [if_pos h]
  · intro h
    subst h
    refine ⟨by unfold generateServerID; rw [if_neg (by simp)], ?_, ?_⟩
    · rw [List.length_take, hexEncodeChars_length, hlen]
      omega
    · intro ch hch
      exact hexEncodeChars_mem bytes ch (List.take_subset _ _ hch)
  · intro c ss hpid herr
    subst hpid
    simp only [Client.connectWithTransport] at herr ⊢
    cases hml : mlookup (generateServerID ss.providerId ts bytes) c.servers with
    | some s => simp [hml] at herr
    | none =>
        simp only [hml]
        rw [mlookup_append_right _ _ _ hml]
        simp [mlookup]

theorem generateServerID_form_witness :
    generateServerID "" "20240101-000000" demoBytes
        = "mcp-server-20240101-000000-abcd1234" ∧
    generateServerID "prov-7" "20240101-000000" demoBytes = "prov-7" ∧
    (∀ ch ∈ (hexEncodeChars demoBytes).take 8, ch ∈ hexDigits) := by
  refine ⟨?_, ?_, ?_⟩
  · have h := ((generateServerID_form "" "20240101-000000" demoBytes
      rfl).2.1 rfl).1
    rw [h]
    rfl
  · exact (generateServerID_form "prov-7" "20240101-000000" demoBytes
      rfl).1 (by decide)
  · exact ((generateServerID_form "" "20240101-000000" demoBytes
      rfl).2.1 rfl).2.2

theorem listServerTools_all_missing (sid : String) (items : List ToolsItem)
    (h : ∀ it ∈ items, it = ToolsItem.missing) :
    listServerTools sid items = Except.ok [] := by
  induction items with
  | nil => rfl
  | cons it rest ih =>
      have h1 := h it (List.mem_cons_self _ _)
      subst h1
      simpa [listServerTools] using
        ih (fun it' hit => h it' (List.mem_cons_of_mem _ hit))

theorem toolsAll_all_missing (sids : List (Nat × String))
    (ss : List (String × Session))
    (h : ∀ p ∈ ss, ∀ it ∈ p.2.toolsList, it = ToolsItem.missing) :
    toolsAll sids ss = Except.ok [] := by
  induction ss with
  | nil => rfl
  | cons p rest ih =>
      have h1 := listServerTools_all_missing
        ((mlookup p.2.token sids).getD "") p.2.toolsList
        (h p (List.mem_cons_self _ _))
      have h2 := ih (fun p' hp => h p' (List.mem_cons_of_mem _ hp))
      simp [toolsAll, h1, h2]

/-- C3: `Tools` on an empty registry always fails with the
no-connections error; `Tools` on a non-empty registry all of whose
connections report zero tools fails with the distinct no-tools error
after enumerating all connections; the two failures differ. -/
theorem tools_precondition_errors (c : Client) :
    (c.servers = [] → Client.Tools c = Except.error "no servers connected") ∧
    (c.servers ≠ [] →
      (∀ p ∈ c.servers, ∀ it ∈ p.2.toolsList, it = ToolsItem.missing) →
      Client.Tools c = Except.error "no tools found") ∧
    ("no servers connected" : String) ≠ "no tools found" := by
  refine ⟨?_, ?_, by decide⟩
  · intro h
    unfold Client.Tools
    rw [h]
    rfl
  · intro hne hz
    unfold Client.Tools
    rw [if_neg (by simpa [List.isEmpty_iff] using hne)]
    rw [toolsAll_all_missing c.serverIDs c.servers hz]
    rfl

theorem tools_precondition_errors_witness :
    Client.Tools NewClient = Except.error "no servers connected" ∧
    Client.Tools quietClient = Except.error "no tools found" := by
  constructor
  · exact (tools_precondition_errors NewClient).1 rfl
  · refine (tools_precondition_errors quietClient).2.1 (by simp [quietClient]) ?_
    intro p hp it hit
    have hp' : p = ("A", (⟨0, "A", []⟩ : Session)) := by
      simpa [quietClient] using hp
    rw [hp'] at hit
    cases hit

theorem handleLoop_eq_map {ε : Type} (tools : List (Tool ε))
    (runExec : ε → Args → Except String String) (tcs : List ToolCall) :
    handleLoop tools runExec tcs
      = tcs.map (fun tc =>
          { role := "tool",
            content := toolCallMessageContent tools runExec tc }) := by
  induction tcs with
  | nil => rfl
  | cons tc rest ih => simp [handleLoop, ih]

/-- C4: `HandleToolCallsInResponse` returns, without error, exactly one
`tool`-role result message per requested invocation, in request order;
the content of each message is the invocation's output on success and a
textual failure description on failure (never an error to the caller);
and a response with no invocation requests yields an empty result with
no error. -/
theorem handle_tool_calls_per_request {ε : Type} (tools : List (Tool ε))
    (runExec : ε → Args → Except String String) (tcs : List ToolCall) :
    HandleToolCallsInResponse tools runExec tcs
      = Except.ok (tcs.map (fun tc =>
          { role := "tool",
            content := toolCallMessageContent tools runExec tc })) ∧
    (tcs = [] →
      HandleToolCallsInResponse tools runExec tcs = Except.ok []) ∧
    (∀ tc : ToolCall,
      (∃ result, ExecuteToolCall tools runExec tc = Except.ok result ∧
        toolCallMessageContent tools runExec tc = result) ∨
      (∃ e, ExecuteToolCall tools runExec tc = Except.error e ∧
        toolCallMessageContent tools runExec tc
          = "Tool execution failed: " ++ e)) := by
  refine ⟨?_, ?_, ?_⟩
  · unfold HandleToolCallsInResponse
    by_cases h : tcs.length = 0
    · rw [if_pos h]
      rw [List.length_eq_zero] at h
      rw [h]
      rfl
    · rw [if_neg h]
      rw [handleLoop_eq_map]
  · intro h
    rw [h]
    rfl
  · intro tc
    unfold toolCallMessageContent
    cases h : ExecuteToolCall tools runExec tc with
    | ok result => exact Or.inl ⟨result, rfl, rfl⟩
    | error e => exact Or.inr ⟨e, rfl, rfl⟩

theorem handle_tool_calls_per_request_witness :
    HandleToolCallsInResponse demoOllamaTools demoRunExec
        [⟨"good", []⟩, ⟨"bad", []⟩]
      = Except.ok
          [⟨"tool", "42"⟩,
           ⟨"tool", "Tool execution failed: tool execution failed: boom"⟩] ∧
    HandleToolCallsInResponse demoOllamaTools demoRunExec []
      = Except.ok [] := by
  constructor
  · rw [(handle_tool_calls_per_request demoOllamaTools demoRunExec
      [⟨"good", []⟩, ⟨"bad", []⟩]).1]
    rfl
  · exact (handle_tool_calls_per_request demoOllamaTools demoRunExec []).2.1 rfl

theorem connectWithTransport_cases (c : Client)
    (conn : Except String Session) (ts : String) (bytes : List Nat) :
    ((∃ e, (Client.connectWithTransport c conn ts bytes).error = some e) ∧
      (Client.connectWithTransport c conn ts bytes).newClient = c) ∨
    ((Client.connectWithTransport c conn ts bytes).error = none ∧
      ∃ ss, conn = Except.ok ss ∧
        mlookup (generateServerID ss.providerId ts bytes) c.servers
          = none ∧
        (Client.connectWithTransport c conn ts bytes).newClient.servers
          = c.servers
            ++ [(generateServerID ss.providerId ts bytes, ss)] ∧
        (Client.connectWithTransport c conn ts bytes).newClient.serverIDs
          = c.serverIDs
            ++ [(ss.token, generateServerID ss.providerId ts bytes)]) := by
  cases conn with
  | error e => exact Or.inl ⟨⟨_, rfl⟩, rfl⟩
  | ok ss =>
      cases hml : mlookup (generateServerID ss.providerId ts bytes)
          c.servers with
      | some s =>
          refine Or.inl ⟨⟨"server with ID "
              ++ generateServerID ss.providerId ts bytes
              ++ " already exists", ?_⟩, ?_⟩ <;>
            simp [Client.connectWithTransport, hml]
      | none =>
          refine Or.inr ⟨?_, ss, rfl, hml, ?_, ?_⟩ <;>
            simp [Client.connectWithTransport, hml]

theorem runConnects_size (c : Client) (cfgs : List ConfigA) :
    (runConnects c cfgs).1.servers.length
      = c.servers.length + (runConnects c cfgs).2 := by
  induction cfgs generalizing c with
  | nil => rfl
  | cons cfg rest ih =>
      simp only [runConnects]
      rcases connectWithTransport_cases c cfg.conn cfg.ts cfg.bytes with
        ⟨⟨e, he⟩, hc⟩ | ⟨he, ss, _, _, hsrv, _⟩
      · rw [he, if_neg (Option.some_ne_none e), hc]
        exact ih c
      · rw [he, if_pos rfl]
        have h2 := ih ((Client.connectWithTransport c cfg.conn cfg.ts
          cfg.bytes).newClient)
        rw [hsrv] at h2
        simp only [List.length_append, List.length_singleton] at h2
        omega

/-- C2: a connection attempt whose resulting id is already registered
closes the new session, fails with the duplicate-id error, and leaves
the registry unchanged — same state, same size, the previously
registered session still found under that id; and over any sequence of
`Connect` calls the registry size grows by exactly the number of
successful connects. -/
theorem connect_duplicate_rejected (c : Client) (ss : Session)
    (ts : String) (bytes : List Nat) (s₀ : Session)
    (hdup : mlookup (generateServerID ss.providerId ts bytes) c.servers
      = some s₀) :
    (Client.connectWithTransport c (Except.ok ss) ts bytes).error
        = some ("server with ID " ++ generateServerID ss.providerId ts bytes
            ++ " already exists") ∧
    (Client.connectWithTransport c (Except.ok ss) ts bytes).closedNew
        = true ∧
    (Client.connectWithTransport c (Except.ok ss) ts bytes).newClient = c ∧
    mlookup (generateServerID ss.providerId ts bytes)
        (Client.connectWithTransport c
          (Except.ok ss) ts bytes).newClient.servers = some s₀ ∧
    (∀ (c₀ : Client) (cfgs : List ConfigA),
      (runConnects c₀ cfgs).1.servers.length
        = c₀.servers.length + (runConnects c₀ cfgs).2) := by
  refine ⟨?_, ?_, ?_, ?_, fun c₀ cfgs => runConnects_size c₀ cfgs⟩ <;>
    simp [Client.connectWithTransport, hdup]

theorem connect_duplicate_rejected_witness :
    (Client.connectWithTransport demoClient
        (Except.ok dupSession) "t" []).error
      = some "server with ID A already exists" ∧
    (Client.connectWithTransport demoClient
        (Except.ok dupSession) "t" []).newClient = demoClient ∧
    mlookup "A" (Client.connectWithTransport demoClient
        (Except.ok dupSession) "t" []).newClient.servers = some sessA ∧
    (runConnects NewClient
        [⟨"a", Except.ok ⟨0, "A", []⟩, "t", []⟩,
         ⟨"dup", Except.ok dupSession, "t", []⟩,
         ⟨"b", Except.ok ⟨1, "B", []⟩, "t", []⟩]).1.servers.length
      = 0 + (runConnects NewClient
        [⟨"a", Except.ok ⟨0, "A", []⟩, "t", []⟩,
         ⟨"dup", Except.ok dupSession, "t", []⟩,
         ⟨"b", Except.ok ⟨1, "B", []⟩, "t", []⟩]).2 := by
  have h := connect_duplicate_rejected demoClient dupSession "t" [] sessA rfl
  refine ⟨h.1, h.2.2.1, h.2.2.2.1, ?_⟩
  exact h.2.2.2.2 NewClient _

/-- C10: the registry's two maps are mutual inverses: the empty
registry satisfies the relation, every `Connect` (with a fresh session
object, as the transport guarantees) preserves it, and any failed
attempt — in particular a rejected duplicate — leaves both maps
unchanged. -/
theorem registry_maps_mutual_inverse :
    RegistryInv NewClient ∧
    (∀ (c : Client) (conn : Except String Session) (ts : String)
        (bytes : List Nat),
      RegistryInv c →
      (∀ ss, conn = Except.ok ss → mlookup ss.token c.serverIDs = none) →
      RegistryInv (Client.connectWithTransport c conn ts bytes).newClient) ∧
    (∀ (c : Client) (conn : Except String Session) (ts : String)
        (bytes : List Nat) (e : String),
      (Client.connectWithTransport c conn ts bytes).error = some e →
      (Client.connectWithTransport c conn ts bytes).newClient = c) := by
  refine ⟨⟨?_, ?_⟩, ?_, ?_⟩
  · intro id s h
    cases h
  · intro t id h
    cases h
  · intro c conn ts bytes hinv hfresh
    rcases connectWithTransport_cases c conn ts bytes with
      ⟨⟨e, _⟩, hc⟩ | ⟨_, ss, hconn, hguard, hsrv, hids⟩
    · rw [hc]
      exact hinv
    · have hfr := hfresh ss hconn
      constructor
      · intro id s h
        rw [hsrv] at h
        rw [hids]
        rw [mlookup_append] at h
        cases hold : mlookup id c.servers with
        | some s' =>
            rw [hold] at h
            injection h with h'
            subst h'
            exact mlookup_append_left _ _ _ _ (hinv.1 id s' hold)
        | none =>
            rw [hold] at h
            simp only [mlookup] at h
            by_cases hid : generateServerID ss.providerId ts bytes = id
            · rw [if_pos hid] at h
              injection h with h'
              subst h'
              rw [mlookup_append_right _ _ _ hfr]
              simp [mlookup, hid]
            · rw [if_neg hid] at h
              cases h
      · intro t id h
        rw [hids] at h
        rw [hsrv]
        rw [mlookup_append] at h
        cases hold : mlookup t c.serverIDs with
        | some id0 =>
            rw [hold] at h
            injection h with h'
            subst h'
            have h2 := hinv.2 t id0 hold
            cases hold2 : mlookup id0 c.servers with
            | some s' =>
                rw [hold2] at h2
                rw [mlookup_append_left _ _ _ _ hold2]
                exact h2
            | none =>
                rw [hold2] at h2
                simp at h2
        | none =>
            rw [hold] at h
            simp only [mlookup] at h
            by_cases ht : ss.token = t
            · rw [if_pos ht] at h
              injection h with h'
              subst h'
              rw [mlookup_append_right _ _ _ hguard]
              simp [mlookup, ht]
            · rw [if_neg ht] at h
              cases h
  · intro c conn ts bytes e he
    rcases connectWithTransport_cases c conn ts bytes with
      ⟨_, hc⟩ | ⟨hnone, _⟩
    · exact hc
    · rw [hnone] at he
      cases he

theorem registry_maps_mutual_inverse_witness :
    RegistryInv (Client.connectWithTransport NewClient
        (Except.ok ⟨0, "A", []⟩) "t" []).newClient ∧
    (Client.connectWithTransport NewClient
        (Except.error "spawn failed") "t" []).newClient = NewClient := by
  constructor
  · refine registry_maps_mutual_inverse.2.1 NewClient
      (Except.ok ⟨0, "A", []⟩) "t" []
      registry_maps_mutual_inverse.1 ?_
    intro ss h
    injection h with h'
    subst h'
    rfl
  · exact registry_maps_mutual_inverse.2.2 NewClient
      (Except.error "spawn failed") "t" [] "failed to connect to MCP server: spawn failed" rfl

theorem connectFromConfigs_append (c : Client) (xs ys : List ConfigA) :
    Client.ConnectFromConfigs c (xs ++ ys)
      = if (Client.ConnectFromConfigs c xs).2 = none
        then Client.ConnectFromConfigs (Client.ConnectFromConfigs c xs).1 ys
        else Client.ConnectFromConfigs c xs := by
  induction xs generalizing c with
  | nil => simp [Client.ConnectFromConfigs]
  | cons cfg rest ih =>
      simp only [List.cons_append, Client.ConnectFromConfigs]
      cases h : (Client.connectWithTransport c cfg.conn cfg.ts
          cfg.bytes).error with
      | some e => simp
      | none => exact ih _

theorem connectFromConfigs_servers_extend (c : Client)
    (cfgs : List ConfigA) :
    ∃ ext, (Client.ConnectFromConfigs c cfgs).1.servers
      = c.servers ++ ext := by
  induction cfgs generalizing c with
  | nil => exact ⟨[], by simp [Client.ConnectFromConfigs]⟩
  | cons cfg rest ih =>
      simp only [Client.ConnectFromConfigs]
      rcases connectWithTransport_cases c cfg.conn cfg.ts cfg.bytes with
        ⟨⟨e, he⟩, hc⟩ | ⟨he, ss, _, _, hsrv, _⟩
      · rw [he]
        simp only []
        rw [hc]
        exact ⟨[], by simp⟩
      · rw [he]
        simp only []
        rcases ih ((Client.connectWithTransport c cfg.conn cfg.ts
          cfg.bytes).newClient) with ⟨ext, hext⟩
        rw [hext, hsrv]
        exact ⟨_, by rw [List.append_assoc]⟩

/-- C9: `ConnectFromConfigs` applies `Connect` to each descriptor
sequentially in order; the first failure is wrapped with the
descriptor's name and returned, and the remaining descriptors are
never attempted (the outcome does not depend on them); when every
connect succeeds, no error is returned and every descriptor's session
is registered under its id in the final registry. -/
theorem connect_from_configs_policy :
    (∀ (c : Client) (pre : List ConfigA) (bad : ConfigA)
        (post post' : List ConfigA),
      (Client.ConnectFromConfigs c pre).2 = none →
      (Client.connectWithTransport (Client.ConnectFromConfigs c pre).1
          bad.conn bad.ts bad.bytes).error ≠ none →
      Client.ConnectFromConfigs c (pre ++ bad :: post)
        = Client.ConnectFromConfigs c (pre ++ bad :: post')) ∧
    (∀ (c : Client) (pre : List ConfigA) (bad : ConfigA)
        (post : List ConfigA) (e : String),
      (Client.ConnectFromConfigs c pre).2 = none →
      (Client.connectWithTransport (Client.ConnectFromConfigs c pre).1
          bad.conn bad.ts bad.bytes).error = some e →
      (Client.ConnectFromConfigs c (pre ++ bad :: post)).2
        = some ("failed to connect to server " ++ bad.name ++ ": " ++ e)) ∧
    (∀ (c : Client) (cfgs : List ConfigA),
      (Client.ConnectFromConfigs c cfgs).2 = none →
      ∀ cfg ∈ cfgs, ∀ ss, cfg.conn = Except.ok ss →
        mlookup (generateServerID ss.providerId cfg.ts cfg.bytes)
            (Client.ConnectFromConfigs c cfgs).1.servers = some ss) := by
  refine ⟨?_, ?_, ?_⟩
  · intro c pre bad post post' hpre hbad
    rw [connectFromConfigs_append, connectFromConfigs_append,
      if_pos hpre, if_pos hpre]
    simp only [Client.ConnectFromConfigs]
    cases h : (Client.connectWithTransport
        (Client.ConnectFromConfigs c pre).1 bad.conn bad.ts
        bad.bytes).error with
    | some e => simp
    | none => exact absurd h hbad
  · intro c pre bad post e hpre hbad
    rw [connectFromConfigs_append, if_pos hpre]
    simp only [Client.ConnectFromConfigs]
    rw [hbad]
  · intro c cfgs hok cfg hmem ss hss
    induction cfgs generalizing c with
    | nil => cases hmem
    | cons cfg0 rest ih =>
        simp only [Client.ConnectFromConfigs] at hok ⊢
        cases hE : (Client.connectWithTransport c cfg0.conn cfg0.ts
            cfg0.bytes).error with
        | some e => simp [hE] at hok
        | none =>
            simp only [hE] at hok ⊢
            rcases List.mem_cons.mp hmem with h1 | h1
            · subst h1
              rcases connectWithTransport_cases c cfg.conn cfg.ts
                  cfg.bytes with ⟨⟨e, he⟩, _⟩ | ⟨_, ss', hconn, hguard, hsrv, _⟩
              · rw [he] at hE
                cases hE
              · rw [hss] at hconn
                injection hconn with h2
                subst h2
                rcases connectFromConfigs_servers_extend
                  ((Client.connectWithTransport c cfg.conn cfg.ts
                    cfg.bytes).newClient) rest with ⟨ext, hext⟩
                rw [hext, hsrv, List.append_assoc]
                rw [mlookup_append_right _ _ _ hguard]
                simp [mlookup]
            · exact ih _ hok h1

theorem connect_from_configs_policy_witness :
    Client.ConnectFromConfigs NewClient
        [⟨"a", Except.ok ⟨0, "A", []⟩, "t", []⟩,
         ⟨"x", Except.error "spawn failed", "t", []⟩,
         ⟨"b", Except.ok ⟨1, "B", []⟩, "t", []⟩]
      = Client.ConnectFromConfigs NewClient
        [⟨"a", Except.ok ⟨0, "A", []⟩, "t", []⟩,
         ⟨"x", Except.error "spawn failed", "t", []⟩] ∧
    (Client.ConnectFromConfigs NewClient
        [⟨"a", Except.ok ⟨0, "A", []⟩, "t", []⟩,
         ⟨"x", Except.error "spawn failed", "t", []⟩,
         ⟨"b", Except.ok ⟨1, "B", []⟩, "t", []⟩]).2
      = some "failed to connect to server x: failed to connect to MCP server: spawn failed" ∧
    mlookup "A" (Client.ConnectFromConfigs NewClient
        [⟨"a", Except.ok ⟨0, "A", []⟩, "t", []⟩,
         ⟨"b", Except.ok ⟨1, "B", []⟩, "t", []⟩]).1.servers
      = some ⟨0, "A", []⟩ := by
  refine ⟨?_, ?_, ?_⟩
  · exact connect_from_configs_policy.1 NewClient
      [⟨"a", Except.ok ⟨0, "A", []⟩, "t", []⟩]
      ⟨"x", Except.error "spawn failed", "t", []⟩
      [⟨"b", Except.ok ⟨1, "B", []⟩, "t", []⟩] [] rfl (by decide)
  · exact connect_from_configs_policy.2.1 NewClient
      [⟨"a", Except.ok ⟨0, "A", []⟩, "t", []⟩]
      ⟨"x", Except.error "spawn failed", "t", []⟩
      [⟨"b", Except.ok ⟨1, "B", []⟩, "t", []⟩]
      "failed to connect to MCP server: spawn failed" rfl rfl
  · exact connect_from_configs_policy.2.2 NewClient
      [⟨"a", Except.ok ⟨0, "A", []⟩, "t", []⟩,
       ⟨"b", Except.ok ⟨1, "B", []⟩, "t", []⟩] rfl
      ⟨"a", Except.ok ⟨0, "A", []⟩, "t", []⟩ (List.mem_cons_self _ _)
      ⟨0, "A", []⟩ rfl

theorem string_append_right_cancel (a b n : String) (h : a ++ n = b ++ n) :
    a = b := by
  have hd : a.data ++ n.data = b.data ++ n.data := by
    have h2 := congrArg String.data h
    simpa [String.data_append] using h2
  have h3 : a.data = b.data := List.append_cancel_right hd
  cases a
  cases b
  exact congrArg String.mk (by simpa using h3)

theorem listServerTools_mem (sid : String) (items : List ToolsItem)
    (res : List ToolMCP) (h : listServerTools sid items = Except.ok res) :
    ∀ t ∈ res, ∃ mt params, ToolsItem.tool mt ∈ items ∧
      convertInputSchema mt = Except.ok params ∧
      t = mkCommonTool sid mt params := by
  induction items generalizing res with
  | nil =>
      simp only [listServerTools] at h
      injection h with h'
      subst h'
      intro t ht
      cases ht
  | cons it rest ih =>
      cases it with
      | fail e => simp [listServerTools] at h
      | missing =>
          simp only [listServerTools] at h
          intro t ht
          rcases ih res h t ht with ⟨mt, params, hmem, hconv, heq⟩
          exact ⟨mt, params, List.mem_cons_of_mem _ hmem, hconv, heq⟩
      | tool mt0 =>
          simp only [listServerTools] at h
          cases hcv : convertInputSchema mt0 with
          | error e => rw [hcv] at h; cases h
          | ok params0 =>
              rw [hcv] at h
              cases hrest : listServerTools sid rest with
              | error e => rw [hrest] at h; cases h
              | ok res' =>
                  rw [hrest] at h
                  injection h with h'
                  subst h'
                  intro t ht
                  rcases List.mem_cons.mp ht with h1 | h1
                  · exact ⟨mt0, params0, List.mem_cons_self _ _, hcv, h1⟩
                  · rcases ih res' hrest t h1 with ⟨mt, params, hmem, hconv, heq⟩
                    exact ⟨mt, params, List.mem_cons_of_mem _ hmem, hconv, heq⟩

theorem toolsAll_mem (sids : List (Nat × String))
    (ss : List (String × Session)) (res : List ToolMCP)
    (h : toolsAll sids ss = Except.ok res) :
    ∀ t ∈ res, ∃ p ∈ ss, ∃ l,
      listServerTools ((mlookup p.2.token sids).getD "") p.2.toolsList
        = Except.ok l ∧ t ∈ l := by
  induction ss generalizing res with
  | nil =>
      simp only [toolsAll] at h
      injection h with h'
      subst h'
      intro t ht
      cases ht
  | cons p rest ih =>
      simp only [toolsAll] at h
      cases h1 : listServerTools ((mlookup p.2.token sids).getD "")
          p.2.toolsList with
      | error e => rw [h1] at h; cases h
      | ok l1 =>
          rw [h1] at h
          cases h2 : toolsAll sids rest with
          | error e => rw [h2] at h; cases h
          | ok l2 =>
              rw [h2] at h
              injection h with h'
              subst h'
              intro t ht
              rcases List.mem_append.mp ht with hm | hm
              · exact ⟨p, List.mem_cons_self _ _, l1, h1, hm⟩
              · rcases ih l2 h2 t hm with ⟨p', hp', l', hl', hm'⟩
                exact ⟨p', List.mem_cons_of_mem _ hp', l', hl', hm'⟩

/-- C1: every tool returned by `Tools` carries the display name
`<owning connection id>:<native name>` through its bound executor, the
owning connection is registered under that id and advertises the
native tool, and `Execute` on the tool invokes exactly that connection
(its session object) with the native, unprefixed name and the given
arguments; moreover two tools with identically-named native tools but
different owning connections have distinct display names. -/
theorem listTools_prefix_routing (c : Client) (tools : List ToolMCP)
    (hw : Wf c) (h : Client.Tools c = Except.ok tools) :
    (∀ t ∈ tools, ∃ e s, t.executor = some e ∧
      t.name = e.serverID ++ ":" ++ e.toolName ∧
      mlookup e.serverID c.servers = some s ∧
      (∃ mt, ToolsItem.tool mt ∈ s.toolsList ∧ mt.name = e.toolName) ∧
      (∀ call args r, call s.token e.toolName args = Except.ok r →
        MCPToolExecutor.Execute c e call args
          = Except.ok (convertResult r))) ∧
    (∀ t₁ ∈ tools, ∀ t₂ ∈ tools, ∀ e₁ e₂,
      t₁.executor = some e₁ → t₂.executor = some e₂ →
      e₁.toolName = e₂.toolName → e₁.serverID ≠ e₂.serverID →
      t₁.name ≠ t₂.name) := by
  have hmain : ∀ t ∈ tools, ∃ e s, t.executor = some e ∧
      t.name = e.serverID ++ ":" ++ e.toolName ∧
      mlookup e.serverID c.servers = some s ∧
      (∃ mt, ToolsItem.tool mt ∈ s.toolsList ∧ mt.name = e.toolName) ∧
      (∀ call args r, call s.token e.toolName args = Except.ok r →
        MCPToolExecutor.Execute c e call args
          = Except.ok (convertResult r)) := by
    intro t ht
    unfold Client.Tools at h
    by_cases hemp : c.servers.isEmpty
    · rw [if_pos hemp] at h
      cases h
    · rw [if_neg hemp] at h
      cases hall : toolsAll c.serverIDs c.servers with
      | error e =>
          simp only [hall] at h
          cases h
      | ok result =>
          simp only [hall] at h
          by_cases hres : result.isEmpty
          · rw [if_pos hres] at h
            cases h
          · rw [if_neg hres] at h
            injection h with h'
            subst h'
            rcases toolsAll_mem c.serverIDs c.servers result hall t ht with
              ⟨⟨k, s⟩, hp, l, hl, hm⟩
            have hks : mlookup k c.servers = some s :=
              mlookup_eq_of_mem_nodup c.servers k s hp hw.1
            have hsid : mlookup s.token c.serverIDs = some k :=
              hw.2.1 k s hks
            rw [hsid] at hl
            rcases listServerTools_mem k s.toolsList l hl t hm with
              ⟨mt, params, hmem, _, heq⟩
            refine ⟨⟨k, mt.name, mt⟩, s, ?_, ?_, hks, ⟨mt, hmem, rfl⟩, ?_⟩
            · rw [heq]; rfl
            · rw [heq]; rfl
            · intro call args r hcall
              simp only [MCPToolExecutor.Execute, hks, hcall]
  refine ⟨hmain, ?_⟩
  intro t₁ ht₁ t₂ ht₂ e₁ e₂ hx₁ hx₂ hnm hsid hne
  rcases hmain t₁ ht₁ with ⟨e₁', _, hx₁', hn₁, _⟩
  rcases hmain t₂ ht₂ with ⟨e₂', _, hx₂', hn₂, _⟩
  rw [hx₁] at hx₁'
  injection hx₁' with hq₁
  rw [hx₂] at hx₂'
  injection hx₂' with hq₂
  subst hq₁
  subst hq₂
  rw [hn₁, hn₂, hnm] at hne
  have h5 : e₁.serverID ++ ":" = e₂.serverID ++ ":" := by
    apply string_append_right_cancel _ _ e₂.toolName
    rw [String.append_assoc, String.append_assoc] at hne ⊢
    exact hne
  exact hsid (string_append_right_cancel _ _ ":" h5)

theorem demoWf : Wf demoClient := by
  refine ⟨by decide, ?_, ?_⟩
  · intro id s h
    simp only [demoClient, mlookup] at h
    split at h
    · next heq =>
        injection h with h'
        subst h'
        subst heq
        rfl
    · split at h
      · next heq =>
          injection h with h'
          subst h'
          subst heq
          rfl
      · cases h
  · intro t id h
    simp only [demoClient, mlookup] at h
    split at h
    · next heq =>
        injection h with h'
        subst h'
        subst heq
        rfl
    · split at h
      · next heq =>
          injection h with h'
          subst h'
          subst heq
          rfl
      · cases h

theorem listTools_prefix_routing_witness :
    Client.Tools demoClient = Except.ok demoTools ∧
    demoTools.map (fun t => t.name) = ["A:ping", "B:ping", "B:status"] ∧
    MCPToolExecutor.Execute demoClient ⟨"B", "ping", pingTool⟩ demoCall []
      = Except.ok "pong-B" ∧
    (∀ t ∈ demoTools, ∃ e s, t.executor = some e ∧
      t.name = e.serverID ++ ":" ++ e.toolName ∧
      mlookup e.serverID demoClient.servers = some s ∧
      (∃ mt, ToolsItem.tool mt ∈ s.toolsList ∧ mt.name = e.toolName) ∧
      (∀ call args r, call s.token e.toolName args = Except.ok r →
        MCPToolExecutor.Execute demoClient e call args
          = Except.ok (convertResult r))) ∧
    (∀ t₁ ∈ demoTools, ∀ t₂ ∈ demoTools, ∀ e₁ e₂,
      t₁.executor = some e₁ → t₂.executor = some e₂ →
      e₁.toolName = e₂.toolName → e₁.serverID ≠ e₂.serverID →
      t₁.name ≠ t₂.name) := by
  refine ⟨rfl, rfl, rfl, ?_, ?_⟩
  · exact (listTools_prefix_routing demoClient demoTools demoWf rfl).1
  · exact (listTools_prefix_routing demoClient demoTools demoWf rfl).2

theorem decodeStrings_map_str (ss : List String) :
    decodeStrings (ss.map Json.str) = Except.ok ss := by
  induction ss with
  | nil => rfl
  | cons s rest ih => simp [decodeStrings, ih]

theorem unmarshalSrcProperty_marshalPD (pd : PropertyDefinition)
    (h : pd.items ≠ some Json.null) :
    unmarshalSrcProperty zeroSrcProperty (marshalPD pd)
      = Except.ok ⟨pd.type, pd.description, pd.items, pd.enum⟩ := by
  obtain ⟨ty, de, it, en⟩ := pd
  simp only at h
  cases it with
  | none =>
      by_cases hd : de = "" <;> by_cases he : en.isEmpty <;>
        simp_all [marshalPD, unmarshalSrcProperty, processSrcPropertyFields,
          processSrcPropertyField, zeroSrcProperty, List.isEmpty_iff]
  | some j =>
      cases j with
      | null => exact absurd rfl h
      | bool b =>
          by_cases hd : de = "" <;> by_cases he : en.isEmpty <;>
            simp_all [marshalPD, unmarshalSrcProperty,
              processSrcPropertyFields, processSrcPropertyField,
              zeroSrcProperty, List.isEmpty_iff]
      | num n =>
          by_cases hd : de = "" <;> by_cases he : en.isEmpty <;>
            simp_all [marshalPD, unmarshalSrcProperty,
              processSrcPropertyFields, processSrcPropertyField,
              zeroSrcProperty, List.isEmpty_iff]
      | str s =>
          by_cases hd : de = "" <;> by_cases he : en.isEmpty <;>
            simp_all [marshalPD, unmarshalSrcProperty,
              processSrcPropertyFields, processSrcPropertyField,
              zeroSrcProperty, List.isEmpty_iff]
      | arr xs =>
          by_cases hd : de = "" <;> by_cases he : en.isEmpty <;>
            simp_all [marshalPD, unmarshalSrcProperty,
              processSrcPropertyFields, processSrcPropertyField,
              zeroSrcProperty, List.isEmpty_iff]
      | obj fs =>
          by_cases hd : de = "" <;> by_cases he : en.isEmpty <;>
            simp_all [marshalPD, unmarshalSrcProperty,
              processSrcPropertyFields, processSrcPropertyField,
              zeroSrcProperty, List.isEmpty_iff]

theorem unmarshalPD_marshalSrcProperty (sp : SrcProperty)
    (h : sp.items ≠ some Json.null) :
    unmarshalPD zeroPD (marshalSrcProperty sp)
      = Except.ok ⟨sp.type, sp.description, sp.items, sp.enum⟩ := by
  obtain ⟨ty, de, it, en⟩ := sp
  simp only at h
  cases it with
  | none =>
      by_cases hd : de = "" <;> by_cases he : en.isEmpty <;>
        simp_all [marshalSrcProperty, unmarshalPD, processPDFields,
          processPDField, zeroPD, List.isEmpty_iff]
  | some j =>
      cases j with
      | null => exact absurd rfl h
      | bool b =>
          by_cases hd : de = "" <;> by_cases he : en.isEmpty <;>
            simp_all [marshalSrcProperty, unmarshalPD, processPDFields,
              processPDField, zeroPD, List.isEmpty_iff]
      | num n =>
          by_cases hd : de = "" <;> by_cases he : en.isEmpty <;>
            simp_all [marshalSrcProperty, unmarshalPD, processPDFields,
              processPDField, zeroPD, List.isEmpty_iff]
      | str s =>
          by_cases hd : de = "" <;> by_cases he : en.isEmpty <;>
            simp_all [marshalSrcProperty, unmarshalPD, processPDFields,
              processPDField, zeroPD, List.isEmpty_iff]
      | arr xs =>
          by_cases hd : de = "" <;> by_cases he : en.isEmpty <;>
            simp_all [marshalSrcProperty, unmarshalPD, processPDFields,
              processPDField, zeroPD, List.isEmpty_iff]
      | obj fs =>
          by_cases hd : de = "" <;> by_cases he : en.isEmpty <;>
            simp_all [marshalSrcProperty, unmarshalPD, processPDFields,
              processPDField, zeroPD, List.isEmpty_iff]

theorem decodePropsSrc_marshal (l : List (String × PropertyDefinition))
    (acc : List (String × SrcProperty))
    (hnd : (l.map Prod.fst).Nodup)
    (hdisj : ∀ k ∈ l.map Prod.fst, k ∉ acc.map Prod.fst)
    (hit : ∀ q ∈ l, q.2.items ≠ some Json.null) :
    decodePropsSrc acc (l.map (fun q => (q.1, marshalPD q.2)))
      = Except.ok (acc ++ l.map (fun q =>
          (q.1, (⟨q.2.type, q.2.description, q.2.items, q.2.enum⟩
            : SrcProperty)))) := by
  induction l generalizing acc with
  | nil => simp [decodePropsSrc]
  | cons q rest ih =>
      obtain ⟨k, pd⟩ := q
      simp only [List.map_cons, decodePropsSrc,
        unmarshalSrcProperty_marshalPD pd
          (hit (k, pd) (List.mem_cons_self _ _))]
      rw [insertKV_eq_append_of_not_mem acc k _
        (hdisj k (by simp))]
      simp only [List.map_cons, List.nodup_cons] at hnd
      rw [ih _ hnd.2 ?_ (fun q hq => hit q (List.mem_cons_of_mem _ hq))]
      · simp
      · intro k' hk' hmem
        simp only [List.map_append] at hmem
        rcases List.mem_append.mp hmem with hm | hm
        · exact hdisj k' (List.mem_cons_of_mem _ hk') hm
        · simp only [List.map_cons, List.map_nil, List.mem_singleton] at hm
          subst hm
          exact hnd.1 hk'

theorem decodePropsPD_marshal (l : List (String × SrcProperty))
    (acc : List (String × PropertyDefinition))
    (hnd : (l.map Prod.fst).Nodup)
    (hdisj : ∀ k ∈ l.map Prod.fst, k ∉ acc.map Prod.fst)
    (hit : ∀ q ∈ l, q.2.items ≠ some Json.null) :
    decodePropsPD acc (l.map (fun q => (q.1, marshalSrcProperty q.2)))
      = Except.ok (acc ++ l.map (fun q =>
          (q.1, (⟨q.2.type, q.2.description, q.2.items, q.2.enum⟩
            : PropertyDefinition)))) := by
  induction l generalizing acc with
  | nil => simp [decodePropsPD]
  | cons q rest ih =>
      obtain ⟨k, pd⟩ := q
      simp only [List.map_cons, decodePropsPD,
        unmarshalPD_marshalSrcProperty pd
          (hit (k, pd) (List.mem_cons_self _ _))]
      rw [insertKV_eq_append_of_not_mem acc k _
        (hdisj k (by simp))]
      simp only [List.map_cons, List.nodup_cons] at hnd
      rw [ih _ hnd.2 ?_ (fun q hq => hit q (List.mem_cons_of_mem _ hq))]
      · simp
      · intro k' hk' hmem
        simp only [List.map_append] at hmem
        rcases List.mem_append.mp hmem with hm | hm
        · exact hdisj k' (List.mem_cons_of_mem _ hk') hm
        · simp only [List.map_cons, List.map_nil, List.mem_singleton] at hm
          subst hm
          exact hnd.1 hk'

theorem processSrcFields_cons (st st' : SrcSchema) (kv : String × Json)
    (rest : List (String × Json))
    (h : processSrcField st kv = Except.ok st') :
    processSrcFields st (kv :: rest) = processSrcFields st' rest := by
  simp [processSrcFields, h]

theorem processPSFields_cons (st st' : ParameterSchema) (kv : String × Json)
    (rest : List (String × Json))
    (h : processPSField st kv = Except.ok st') :
    processPSFields st (kv :: rest) = processPSFields st' rest := by
  simp [processPSFields, h]

theorem processSrcField_items (st : SrcSchema) (v : Json)
    (hv : v ≠ Json.null) :
    processSrcField st ("items", v) = Except.ok { st with items := some v } := by
  cases v with
  | null => exact absurd rfl hv
  | bool b => rfl
  | num n => rfl
  | str s => rfl
  | arr xs => rfl
  | obj fs => rfl

theorem processPSField_items (st : ParameterSchema) (v : Json)
    (hv : v ≠ Json.null) :
    processPSField st ("items", v) = Except.ok { st with items := some v } := by
  cases v with
  | null => exact absurd rfl hv
  | bool b => rfl
  | num n => rfl
  | str s => rfl
  | arr xs => rfl
  | obj fs => rfl

theorem processSrcField_defs (st : SrcSchema) (v : Json) :
    processSrcField st ("$defs", v)
      = Except.ok { st with defs := defsNorm (some v) } := by
  cases v with
  | null => rfl
  | bool b => rfl
  | num n => rfl
  | str s => rfl
  | arr xs => rfl
  | obj fs => rfl

theorem processPSField_defs (st : ParameterSchema) (v : Json) :
    processPSField st ("$defs", v)
      = Except.ok { st with defs := defsNorm (some v) } := by
  cases v with
  | null => rfl
  | bool b => rfl
  | num n => rfl
  | str s => rfl
  | arr xs => rfl
  | obj fs => rfl

theorem unmarshalSrcSchema_marshalPS (ps : ParameterSchema) (io : Json)
    (hnd : (ps.properties.map Prod.fst).Nodup)
    (hreq : ps.required ≠ [])
    (hprops : ps.properties ≠ [])
    (hio : ps.items = some io) (hionull : io ≠ Json.null)
    (hpit : ∀ q ∈ ps.properties, q.2.items ≠ some Json.null) :
    unmarshalSrcSchema zeroSrcSchema (marshalPS ps)
      = Except.ok ⟨ps.type, ps.required,
          ps.properties.map (fun q =>
            (q.1, ⟨q.2.type, q.2.description, q.2.items, q.2.enum⟩)),
          defsNorm ps.defs, ps.items⟩ := by
  obtain ⟨ty, req, props, defs, items⟩ := ps
  simp only at hio hpit hnd hreq hprops ⊢
  subst hio
  have hre : req.isEmpty = false := by
    cases req with
    | nil => exact absurd rfl hreq
    | cons a l => rfl
  have hpe : props.isEmpty = false := by
    cases props with
    | nil => exact absurd rfl hprops
    | cons a l => rfl
  have hprop := decodePropsSrc_marshal props [] hnd (by simp) hpit
  simp only [List.append_nil, List.nil_append] at hprop
  cases defs with
  | none =>
      simp only [marshalPS, hre, hpe, Bool.false_eq_true, if_false,
        unmarshalSrcSchema, List.cons_append, List.nil_append,
        List.singleton_append, List.append_nil]
      rw [processSrcFields_cons zeroSrcSchema ⟨ty, [], [], none, none⟩
          ("type", Json.str ty) _ rfl,
        processSrcFields_cons _ ⟨ty, req, [], none, none⟩ _ _
          (by simp [processSrcField, decodeStrings_map_str]),
        processSrcFields_cons _
          ⟨ty, req, props.map (fun q =>
            (q.1, ⟨q.2.type, q.2.description, q.2.items, q.2.enum⟩)),
            none, none⟩ _ _
          (by simp [processSrcField, hprop]),
        processSrcFields_cons _
          ⟨ty, req, props.map (fun q =>
            (q.1, ⟨q.2.type, q.2.description, q.2.items, q.2.enum⟩)),
            none, some io⟩ _ _
          (processSrcField_items _ io hionull)]
      rfl
  | some d =>
      simp only [marshalPS, hre, hpe, Bool.false_eq_true, if_false,
        unmarshalSrcSchema, List.cons_append, List.nil_append,
        List.singleton_append, List.append_nil]
      rw [processSrcFields_cons zeroSrcSchema ⟨ty, [], [], none, none⟩
          ("type", Json.str ty) _ rfl,
        processSrcFields_cons _ ⟨ty, req, [], none, none⟩ _ _
          (by simp [processSrcField, decodeStrings_map_str]),
        processSrcFields_cons _
          ⟨ty, req, props.map (fun q =>
            (q.1, ⟨q.2.type, q.2.description, q.2.items, q.2.enum⟩)),
            none, none⟩ _ _
          (by simp [processSrcField, hprop]),
        processSrcFields_cons _
          ⟨ty, req, props.map (fun q =>
            (q.1, ⟨q.2.type, q.2.description, q.2.items, q.2.enum⟩)),
            defsNorm (some d), none⟩ _ _
          (processSrcField_defs _ d),
        processSrcFields_cons _
          ⟨ty, req, props.map (fun q =>
            (q.1, ⟨q.2.type, q.2.description, q.2.items, q.2.enum⟩)),
            defsNorm (some d), some io⟩ _ _
          (processSrcField_items _ io hionull)]
      rfl

theorem unmarshalPS_marshalSrcSchema (sc : SrcSchema) (io : Json)
    (hnd : (sc.properties.map Prod.fst).Nodup)
    (hreq : sc.required ≠ [])
    (hprops : sc.properties ≠ [])
    (hio : sc.items = some io) (hionull : io ≠ Json.null)
    (hpit : ∀ q ∈ sc.properties, q.2.items ≠ some Json.null) :
    unmarshalPS zeroPS (marshalSrcSchema sc)
      = Except.ok ⟨sc.type, sc.required,
          sc.properties.map (fun q =>
            (q.1, ⟨q.2.type, q.2.description, q.2.items, q.2.enum⟩)),
          defsNorm sc.defs, sc.items⟩ := by
  obtain ⟨ty, req, props, defs, items⟩ := sc
  simp only at hio hpit hnd hreq hprops ⊢
  subst hio
  have hre : req.isEmpty = false := by
    cases req with
    | nil => exact absurd rfl hreq
    | cons a l => rfl
  have hpe : props.isEmpty = false := by
    cases props with
    | nil => exact absurd rfl hprops
    | cons a l => rfl
  have hprop := decodePropsPD_marshal props [] hnd (by simp) hpit
  simp only [List.append_nil, List.nil_append] at hprop
  cases defs with
  | none =>
      simp only [marshalSrcSchema, hre, hpe, Bool.false_eq_true, if_false,
        unmarshalPS, List.cons_append, List.nil_append,
        List.singleton_append, List.append_nil]
      rw [processPSFields_cons zeroPS ⟨ty, [], [], none, none⟩
          ("type", Json.str ty) _ rfl,
        processPSFields_cons _ ⟨ty, req, [], none, none⟩ _ _
          (by simp [processPSField, decodeStrings_map_str]),
        processPSFields_cons _
          ⟨ty, req, props.map (fun q =>
            (q.1, ⟨q.2.type, q.2.description, q.2.items, q.2.enum⟩)),
            none, none⟩ _ _
          (by simp [processPSField, hprop]),
        processPSFields_cons _
          ⟨ty, req, props.map (fun q =>
            (q.1, ⟨q.2.type, q.2.description, q.2.items, q.2.enum⟩)),
            none, some io⟩ _ _
          (processPSField_items _ io hionull)]
      rfl
  | some d =>
      simp only [marshalSrcSchema, hre, hpe, Bool.false_eq_true, if_false,
        unmarshalPS, List.cons_append, List.nil_append,
        List.singleton_append, List.append_nil]
      rw [processPSFields_cons zeroPS ⟨ty, [], [], none, none⟩
          ("type", Json.str ty) _ rfl,
        processPSFields_cons _ ⟨ty, req, [], none, none⟩ _ _
          (by simp [processPSField, decodeStrings_map_str]),
        processPSFields_cons _
          ⟨ty, req, props.map (fun q =>
            (q.1, ⟨q.2.type, q.2.description, q.2.items, q.2.enum⟩)),
            none, none⟩ _ _
          (by simp [processPSField, hprop]),
        processPSFields_cons _
          ⟨ty, req, props.map (fun q =>
            (q.1, ⟨q.2.type, q.2.description, q.2.items, q.2.enum⟩)),
            defsNorm (some d), none⟩ _ _
          (processPSField_defs _ d),
        processPSFields_cons _
          ⟨ty, req, props.map (fun q =>
            (q.1, ⟨q.2.type, q.2.description, q.2.items, q.2.enum⟩)),
            defsNorm (some d), some io⟩ _ _
          (processPSField_items _ io hionull)]
      rfl

theorem map_pdToSrc_toPd (props : List (String × PropertyDefinition)) :
    (props.map (fun q => (q.1,
        (⟨q.2.type, q.2.description, q.2.items, q.2.enum⟩
          : SrcProperty)))).map (fun q => (q.1,
        (⟨q.2.type, q.2.description, q.2.items, q.2.enum⟩
          : PropertyDefinition)))
      = props := by
  induction props with
  | nil => rfl
  | cons q rest ih => simp [ih]

/-- C5: a parameter schema with required fields, named properties, an
enum and a nested item schema, transcoded through `ConvertViaJSON` into
the structurally compatible source schema shape and back, keeps all
four facets — the required list, the property definitions (with their
enums and item schemas) and the top-level item schema — exactly. -/
theorem schema_roundtrip (ps : ParameterSchema)
    (hnd : (ps.properties.map Prod.fst).Nodup)
    (hreq : ps.required ≠ [])
    (hprops : ps.properties ≠ [])
    (henum : ∃ q ∈ ps.properties, q.2.enum ≠ [])
    (hitems : ∃ io, ps.items = some io ∧ io ≠ Json.null)
    (hpit : ∀ q ∈ ps.properties, q.2.items ≠ some Json.null) :
    ∃ src, ConvertViaJSONToSchema ps zeroSrcSchema = Except.ok src ∧
      ∃ ps', ConvertViaJSONToParams src zeroPS = Except.ok ps' ∧
        ps'.required = ps.required ∧
        ps'.properties = ps.properties ∧
        ps'.items = ps.items := by
  rcases hitems with ⟨io, hio, hionull⟩
  have h1 := unmarshalSrcSchema_marshalPS ps io hnd hreq hprops hio
    hionull hpit
  refine ⟨⟨ps.type, ps.required,
      ps.properties.map (fun q => (q.1,
        ⟨q.2.type, q.2.description, q.2.items, q.2.enum⟩)),
      defsNorm ps.defs, ps.items⟩, ?_, ?_⟩
  · unfold ConvertViaJSONToSchema
    rw [h1]
  · have hnd2 : ((ps.properties.map (fun q => (q.1,
        (⟨q.2.type, q.2.description, q.2.items, q.2.enum⟩
          : SrcProperty)))).map Prod.fst).Nodup := by
      rw [List.map_map]
      exact hnd
    have hprops2 : ps.properties.map (fun q => (q.1,
        (⟨q.2.type, q.2.description, q.2.items, q.2.enum⟩
          : SrcProperty))) ≠ [] := by
      intro h
      exact hprops (List.map_eq_nil_iff.mp h)
    have hpit2 : ∀ q ∈ ps.properties.map (fun q => (q.1,
        (⟨q.2.type, q.2.description, q.2.items, q.2.enum⟩
          : SrcProperty))), q.2.items ≠ some Json.null := by
      intro q hq
      rcases List.mem_map.mp hq with ⟨q0, hq0, hq0e⟩
      subst hq0e
      exact hpit q0 hq0
    have h2 := unmarshalPS_marshalSrcSchema
      ⟨ps.type, ps.required,
        ps.properties.map (fun q => (q.1,
          ⟨q.2.type, q.2.description, q.2.items, q.2.enum⟩)),
        defsNorm ps.defs, ps.items⟩ io hnd2 hreq hprops2 hio hionull hpit2
    refine ⟨⟨ps.type, ps.required,
        (ps.properties.map (fun q => (q.1,
          (⟨q.2.type, q.2.description, q.2.items, q.2.enum⟩
            : SrcProperty)))).map (fun q => (q.1,
          (⟨q.2.type, q.2.description, q.2.items, q.2.enum⟩
            : PropertyDefinition))),
        defsNorm (defsNorm ps.defs), ps.items⟩, ?_, rfl, ?_, rfl⟩
    · unfold ConvertViaJSONToParams
      rw [h2]
    · exact map_pdToSrc_toPd ps.properties

theorem schema_roundtrip_witness :
    ∃ src, ConvertViaJSONToSchema demoSchema zeroSrcSchema
        = Except.ok src ∧
      ∃ ps', ConvertViaJSONToParams src zeroPS = Except.ok ps' ∧
        ps'.required = demoSchema.required ∧
        ps'.properties = demoSchema.properties ∧
        ps'.items = demoSchema.items := by
  refine schema_roundtrip demoSchema (by decide) (by simp [demoSchema])
    (by simp [demoSchema]) ?_ ?_ ?_
  · exact ⟨("path", ⟨"string", "file path", none,
      [Json.str "a", Json.str "b"]⟩), List.mem_cons_self _ _, by simp⟩
  · exact ⟨Json.obj [("type", Json.str "number")], rfl, by simp⟩
  · intro q hq
    rcases List.mem_cons.mp hq with h1 | h1
    · subst h1
      simp
    · rcases List.mem_cons.mp h1 with h2 | h2
      · subst h2
        simp
      · cases h2
